import Mathlib

/-!
Verification of the MyHome Mind client (src/src/App.jsx) against its
natural-language specification.  The JavaScript source is shallowly
embedded: strings are lists of characters, JavaScript values that may be
`undefined` or `null` are wrapped in `JsArg` (for function arguments) or
`Option` (for record fields), and each mutation handler becomes a pure
Lean function from the relevant state to the new state.
-/

/-- Strings of the embedded program: lists of characters. -/
abbrev Str := List Char

/-- A JavaScript argument that may be `undefined`, `null`, or a value.
`saveData` distinguishes all three (it skips both `undefined` and `null`). -/
inductive JsArg (α : Type) where
  | undef : JsArg α
  | null : JsArg α
  | val : α → JsArg α
deriving DecidableEq, Repr

/-- An argument is "provided" exactly when it is neither `undefined` nor
`null`; this mirrors `x !== undefined && x !== null` in `saveData`. -/
def JsArg.toOption {α : Type} : JsArg α → Option α
  | .val a => some a
  | _ => none

/-- JavaScript truthiness of a nullable string: `undefined`, `null` and the
empty string are falsy, every other string is truthy. -/
def jsTruthyStr : Option Str → Bool
  | none => false
  | some s => !s.isEmpty

/-- Embedding of `String.prototype.toLowerCase`. -/
def jsToLower (s : Str) : Str := s.map Char.toLower

/-- Auxiliary for `jsIncludes`: does `q` occur at the very start of `s`? -/
def strStartsWith : Str → Str → Bool
  | _, [] => true
  | [], _ :: _ => false
  | a :: s, b :: q => a == b && strStartsWith s q

/-- Embedding of `String.prototype.includes`: `jsIncludes s q` is true when
`q` occurs as a contiguous substring of `s`. -/
def jsIncludes : Str → Str → Bool
  | [], q => strStartsWith [] q
  | a :: s, q => strStartsWith (a :: s) q || jsIncludes s q

/-- A Space record: `{ id, name, image }` (src/src/App.jsx DEFAULT_SPACES
and the space handlers). -/
structure Space where
  id : Str
  name : Option Str
  image : Option Str
deriving DecidableEq, Repr, Inhabited

/-- An Option record of an Item (called `Option` in the source; renamed
because Lean reserves that name): `{ id, model, price, store, link, notes,
winner, image }`, created by the Add Option button (src/src/App.jsx:1089). -/
structure ItemOption where
  id : Option Str
  model : Option Str
  price : Option Str
  store : Option Str
  link : Option Str
  notes : Option Str
  winner : Bool
  image : Option Str
deriving DecidableEq, Repr, Inhabited

/-- An Item record: `{ id, spaceId, name, options, image, order }`
(src/src/App.jsx:326-333 `addItemToSpace`). -/
structure Item where
  id : Str
  spaceId : Str
  name : Option Str
  options : Option (List ItemOption)
  image : Option Str
  order : Nat
deriving DecidableEq, Repr, Inhabited

/-- A checklist entry used for both groceries and repairs:
`{ id, text, completed }` (src/src/App.jsx:231,251). -/
structure ChecklistEntry where
  id : Str
  text : Option Str
  completed : Bool
deriving DecidableEq, Repr

/-- The single persisted remote document
`{ spaces, items, groceries, repairs, lastUpdated }`; every top-level key
may be absent, since merge writes create partial documents. -/
structure DocumentData where
  spaces : Option (List Space)
  items : Option (List Item)
  groceries : Option (List ChecklistEntry)
  repairs : Option (List ChecklistEntry)
  lastUpdated : Option Nat
deriving DecidableEq, Repr

/-- Merge of a single top-level field: a key present in the update
overwrites, an absent key keeps the remote value. -/
def mergeField {α : Type} : Option α → Option α → Option α
  | some v, _ => some v
  | none, r => r

/-- Firestore `setDoc(docRef, updates, { merge: true })`: keys present in
`updates` overwrite the remote document, absent keys are left unchanged. -/
def setDocMerge (remote updates : DocumentData) : DocumentData where
  spaces := mergeField updates.spaces remote.spaces
  items := mergeField updates.items remote.items
  groceries := mergeField updates.groceries remote.groceries
  repairs := mergeField updates.repairs remote.repairs
  lastUpdated := mergeField updates.lastUpdated remote.lastUpdated

/-- The `updates` object built by `saveData` (src/src/App.jsx:217-221):
`lastUpdated` is always stamped, and each collection key is added only when
the corresponding argument is neither `undefined` nor `null`. -/
def saveDataUpdates (now : Nat) (newSpaces : JsArg (List Space))
    (newItems : JsArg (List Item)) (newGroceries : JsArg (List ChecklistEntry))
    (newRepairs : JsArg (List ChecklistEntry)) : DocumentData where
  spaces := newSpaces.toOption
  items := newItems.toOption
  groceries := newGroceries.toOption
  repairs := newRepairs.toOption
  lastUpdated := some now

/-- `saveData` (src/src/App.jsx:211-227) as a function on the remote
document: it returns the remote document unchanged when there is no user or
the session is read-only, and otherwise applies a merge write of the
updates object. -/
def saveData (user : Option Str) (isReadOnly : Bool) (now : Nat)
    (newSpaces : JsArg (List Space)) (newItems : JsArg (List Item))
    (newGroceries : JsArg (List ChecklistEntry))
    (newRepairs : JsArg (List ChecklistEntry))
    (remote : DocumentData) : DocumentData :=
  if user.isNone || isReadOnly then remote
  else setDocMerge remote (saveDataUpdates now newSpaces newItems newGroceries newRepairs)

/-- The four collections of the Local State Cache. -/
structure LocalState where
  spaces : List Space
  items : List Item
  groceries : List ChecklistEntry
  repairs : List ChecklistEntry
deriving DecidableEq, Repr

/-- The fixed default Space set (src/src/App.jsx:90-98). -/
def DEFAULT_SPACES : List Space :=
  [ { id := "1".toList, name := some "Living Room".toList, image := none },
    { id := "2".toList, name := some "Kitchen".toList, image := none },
    { id := "3".toList, name := some "Bathroom".toList, image := none },
    { id := "4".toList, name := some "Master Bedroom".toList, image := none },
    { id := "5".toList, name := some "Wardrobe".toList, image := none },
    { id := "6".toList, name := some ("Kids".toList ++ ['\''] ++ " Room".toList), image := none },
    { id := "7".toList, name := some "Garden".toList, image := none } ]

/-- Initial Local State Cache (src/src/App.jsx:104-107): default spaces and
empty item, grocery and repair collections. -/
def initialLocalState : LocalState where
  spaces := DEFAULT_SPACES
  items := []
  groceries := []
  repairs := []

/-- The `onSnapshot` handler (src/src/App.jsx:188-196): when the snapshot
exists, each collection present in the snapshot data overwrites the local
one (`if (data.spaces) setSpaces(data.spaces)` and so on); absent
collections are left untouched.  An array is always truthy in JavaScript,
so presence of the key is what is tested. -/
def onSnapshotHandler (st : LocalState) (snapshotExists : Bool)
    (data : DocumentData) : LocalState :=
  if snapshotExists then
    { spaces := data.spaces.getD st.spaces
      items := data.items.getD st.items
      groceries := data.groceries.getD st.groceries
      repairs := data.repairs.getD st.repairs }
  else st

/-- Sample space collection used to instantiate theorems. -/
def sampleSpaces : List Space :=
  [ { id := "s1".toList, name := some "Studio".toList, image := none } ]

/-- Sample grocery collection used to instantiate theorems. -/
def sampleGroceries : List ChecklistEntry :=
  [ { id := "g1".toList, text := some "Milk".toList, completed := false } ]

/-- Sample remote document holding only a grocery collection. -/
def sampleRemote : DocumentData where
  spaces := none
  items := none
  groceries := some sampleGroceries
  repairs := none
  lastUpdated := some 5

/-- Sample item collection used to instantiate theorems. -/
def sampleItems : List Item :=
  [ { id := "i1".toList, spaceId := "s1".toList, name := some "Couch".toList,
      options := some [], image := none, order := 0 } ]

/-- `matchItem` (src/src/App.jsx:400-409): an Item matches a query when the
lowercased query occurs in the lowercased item name, or in the lowercased
`model` or `store` of some option. -/
def matchItem (item : Item) (query : Str) : Bool :=
  let q := jsToLower query
  let atomicName := jsToLower (item.name.getD [])
  let matchesName := jsIncludes atomicName q
  let matchesOptions := (item.options.getD []).any fun opt =>
    jsIncludes (jsToLower (opt.model.getD [])) q
      || jsIncludes (jsToLower (opt.store.getD [])) q
  matchesName || matchesOptions

/-- The item filter of the global search results view
(src/src/App.jsx:634,642): `items.filter(i => matchItem(i, searchQuery))`. -/
def filteredItems (items : List Item) (searchQuery : Str) : List Item :=
  items.filter fun i => matchItem i searchQuery

/-- `filteredSpaces` (src/src/App.jsx:411-415): a space is kept when its
name matches the query or some item of that space matches. -/
def filteredSpaces (spaces : List Space) (items : List Item)
    (searchQuery : Str) : List Space :=
  spaces.filter fun s =>
    let matchesName := jsIncludes (jsToLower (s.name.getD [])) (jsToLower searchQuery)
    let hasMatchingItems := items.any fun i => i.spaceId == s.id && matchItem i searchQuery
    matchesName || hasMatchingItems

/-- Sample option whose store field is "Ikea" while its model is
"Stockholm". -/
def storeOption : ItemOption where
  id := some "o1".toList
  model := some "Stockholm".toList
  price := none
  store := some "Ikea".toList
  link := none
  notes := none
  winner := false
  image := none

/-- Sample item named "Couch" whose single option is `storeOption`. -/
def storeItem : Item where
  id := "i2".toList
  spaceId := "s1".toList
  name := some "Couch".toList
  options := some [storeOption]
  image := none
  order := 0

/-- `handleOptionDrop` (src/src/App.jsx:291-301) restricted to the option
list it rearranges: when no drag is in progress or the drop index equals
the drag index it returns the list unchanged; otherwise it splices the
dragged option out at `draggedOptionIdx` and reinserts it at `dropIndex`,
exactly as the two `splice` calls do. -/
def handleOptionDrop (draggedOptionIdx : Option Nat) (dropIndex : Nat)
    (opts : List ItemOption) : List ItemOption :=
  match draggedOptionIdx with
  | none => opts
  | some i =>
    if i = dropIndex then opts
    else
      let draggedOption := opts.getD i default
      (opts.eraseIdx i).insertIdx dropIndex draggedOption

/-- Sample three-element option list used to instantiate the reordering
theorem. -/
def dndSample : List ItemOption :=
  [ { storeOption with id := some "a".toList },
    { storeOption with id := some "b".toList },
    { storeOption with id := some "c".toList } ]

/-- First stage of the Trophy winner toggle (src/src/App.jsx:966):
`newOptions[idx].winner = !newOptions[idx].winner` on a copy of the
list. -/
def toggleAtIdx (idx : Nat) (opts : List ItemOption) : List ItemOption :=
  opts.mapIdx fun i o => if i = idx then { o with winner := !o.winner } else o

/-- Second stage of the Trophy winner toggle (src/src/App.jsx:968):
`newOptions.forEach((o, i) => { if (i !== idx) o.winner = false })`. -/
def clearOtherWinners (idx : Nat) (opts : List ItemOption) : List ItemOption :=
  opts.mapIdx fun i o => if i = idx then o else { o with winner := false }

/-- The Trophy-button winner toggle (src/src/App.jsx:962-971): flip the
winner flag of option `idx`; when the flip turned it on, clear the winner
flag of every other option. -/
def toggleWinner (opts : List ItemOption) (idx : Nat) : List ItemOption :=
  if ((toggleAtIdx idx opts).getD idx default).winner then
    clearOtherWinners idx (toggleAtIdx idx opts)
  else toggleAtIdx idx opts

/-- Number of options flagged as winner. -/
def countWinners (opts : List ItemOption) : Nat :=
  (opts.filter fun o => o.winner).length

/-- Sequential application of winner toggles (repeated Trophy clicks). -/
def toggleSeq (opts : List ItemOption) (ops : List Nat) : List ItemOption :=
  ops.foldl toggleWinner opts

/-- Sample option flagged as winner. -/
def winnerOption : ItemOption := { storeOption with winner := true }

/-- The slice of component state the item handlers act on: the item
collection and the currently selected item. -/
structure ItemsState where
  items : List Item
  selectedItem : Option Item
deriving DecidableEq, Repr

/-- `updateItem` (src/src/App.jsx:339-344) specialized to the
`{ options: newOptions }` update shape used by the winner toggle, option
edits, reordering and the id backfill: map the collection replacing the
matching item's options, mirror the change into the selected item when it
is the one updated, and hand the updated collection to
`saveData(null, updated, null)`.  The second component is that persisted
collection. -/
def updateItem (st : ItemsState) (itemId : Str)
    (newOptions : List ItemOption) : ItemsState × List Item :=
  let updated := st.items.map fun i =>
    if i.id = itemId then { i with options := some newOptions } else i
  (⟨updated,
    match st.selectedItem with
    | some sel =>
      if sel.id = itemId then some { sel with options := some newOptions }
      else some sel
    | none => none⟩,
   updated)

/-- `deleteItem` (src/src/App.jsx:346-351): filter the item out of the
collection and set the selected item to null (unconditionally). -/
def deleteItem (st : ItemsState) (itemId : Str) : ItemsState where
  items := st.items.filter fun i => i.id != itemId
  selectedItem := none

/-- The id backfill over an option list (src/src/App.jsx:272):
`options.map(o => o.id ? o : { ...o, id: crypto.randomUUID() })`.  The
browser's `crypto.randomUUID` is modelled by the supply `uuid`, indexed by
the option's position. -/
def backfillOptions (uuid : Nat → Str) (opts : List ItemOption) : List ItemOption :=
  opts.mapIdx fun i o =>
    if jsTruthyStr o.id then o else { o with id := some (uuid i) }

/-- `selectedItem.options.some(o => !o.id)` (src/src/App.jsx:271). -/
def hasOptionMissingId (opts : List ItemOption) : Bool :=
  opts.any fun o => !jsTruthyStr o.id

/-- The DnD-migration effect (src/src/App.jsx:270-275): when an item is
selected, its options array is present and some option lacks an id, assign
fresh ids and persist the patched list through `updateItem`; otherwise do
nothing. -/
def dndMigrationEffect (uuid : Nat → Str) (st : ItemsState) : ItemsState :=
  match st.selectedItem with
  | some sel =>
    match sel.options with
    | some opts =>
      if hasOptionMissingId opts then
        (updateItem st sel.id (backfillOptions uuid opts)).1
      else st
    | none => st
  | none => st

/-- Sample option lacking an id. -/
def noIdOption : ItemOption := { storeOption with id := none }

/-- Sample item whose options mix a present and a missing id. -/
def mixedIdItem : Item where
  id := "i3".toList
  spaceId := "s1".toList
  name := some "Desk".toList
  options := some [storeOption, noIdOption]
  image := none
  order := 1

/-- Sample items state with `mixedIdItem` both stored and selected. -/
def mixedState : ItemsState where
  items := [mixedIdItem]
  selectedItem := some mixedIdItem

/-- Constant uuid supply used to instantiate theorems. -/
def sampleUuid : Nat → Str := fun _ => "u".toList

/-- C2. After a `saveData` call with a partial update, every top-level
collection key whose argument was `undefined` or `null` is left exactly as
it was in the remote document, every provided key is overwritten with the
provided value, and `lastUpdated` is stamped. -/
theorem saveData_sparse_merge (user : Option Str) (isReadOnly : Bool) (now : Nat)
    (s : JsArg (List Space)) (i : JsArg (List Item))
    (g : JsArg (List ChecklistEntry)) (r : JsArg (List ChecklistEntry))
    (remote : DocumentData) (hu : user.isSome = true) (hro : isReadOnly = false) :
    (saveData user isReadOnly now s i g r remote).lastUpdated = some now
    ∧ (s.toOption = none → (saveData user isReadOnly now s i g r remote).spaces = remote.spaces)
    ∧ (i.toOption = none → (saveData user isReadOnly now s i g r remote).items = remote.items)
    ∧ (g.toOption = none → (saveData user isReadOnly now s i g r remote).groceries = remote.groceries)
    ∧ (r.toOption = none → (saveData user isReadOnly now s i g r remote).repairs = remote.repairs)
    ∧ (∀ v, s = .val v → (saveData user isReadOnly now s i g r remote).spaces = some v)
    ∧ (∀ v, i = .val v → (saveData user isReadOnly now s i g r remote).items = some v)
    ∧ (∀ v, g = .val v → (saveData user isReadOnly now s i g r remote).groceries = some v)
    ∧ (∀ v, r = .val v → (saveData user isReadOnly now s i g r remote).repairs = some v) := by
  have hcond : (user.isNone || isReadOnly) = false := by
    cases user with
    | none => simp at hu
    | some u => simp [hro]
  refine ⟨?_, ?_, ?_, ?_, ?_, ?_, ?_, ?_, ?_⟩ <;>
    simp only [saveData, hcond, Bool.false_eq_true, if_false, setDocMerge, saveDataUpdates] <;>
    first
      | rfl
      | (intro h; simp [h, mergeField])
      | (intro v h; simp [h, JsArg.toOption, mergeField])

/-- Witness for C2 at a concrete input: persisting only items leaves the
groceries of the remote document unchanged and stamps `lastUpdated`. -/
theorem saveData_sparse_merge_witness :
    (saveData (some "u".toList) false 7 .null (.val sampleItems) .null .undef
      sampleRemote).lastUpdated = some 7
    ∧ (saveData (some "u".toList) false 7 .null (.val sampleItems) .null .undef
      sampleRemote).groceries = sampleRemote.groceries := by
  have h := saveData_sparse_merge (some "u".toList) false 7 .null (.val sampleItems)
    .null .undef sampleRemote (by decide) rfl
  exact ⟨h.1, h.2.2.2.1 rfl⟩

/-- C3. `saveData` performs no remote write at all when the user is absent
or the session is read-only: the remote document is returned unchanged. -/
theorem saveData_noop_no_user_or_readonly (user : Option Str) (isReadOnly : Bool)
    (now : Nat) (s : JsArg (List Space)) (i : JsArg (List Item))
    (g : JsArg (List ChecklistEntry)) (r : JsArg (List ChecklistEntry))
    (remote : DocumentData) (h : user = none ∨ isReadOnly = true) :
    saveData user isReadOnly now s i g r remote = remote := by
  have hcond : (user.isNone || isReadOnly) = true := by
    rcases h with h | h <;> simp [h]
  simp [saveData, hcond]

/-- Witness for C3 at concrete inputs: with no user the remote document is
untouched even though an items update was requested. -/
theorem saveData_noop_no_user_or_readonly_witness :
    saveData none false 7 .null (.val sampleItems) .null .undef sampleRemote
      = sampleRemote
    ∧ saveData (some "u".toList) true 7 .null (.val sampleItems) .null .undef
      sampleRemote = sampleRemote := by
  exact ⟨saveData_noop_no_user_or_readonly none false 7 .null (.val sampleItems)
      .null .undef sampleRemote (Or.inl rfl),
    saveData_noop_no_user_or_readonly (some "u".toList) true 7 .null
      (.val sampleItems) .null .undef sampleRemote (Or.inr rfl)⟩

/-- C4. The snapshot handler merges sparsely: a collection present in the
snapshot overwrites the local one, an absent collection leaves the local
value untouched; in particular, a legacy document lacking a `repairs` key
leaves the local repairs collection at its empty-list default. -/
theorem onSnapshot_sparse_merge (st : LocalState) (data : DocumentData) :
    (data.spaces = none → (onSnapshotHandler st true data).spaces = st.spaces)
    ∧ (data.items = none → (onSnapshotHandler st true data).items = st.items)
    ∧ (data.groceries = none → (onSnapshotHandler st true data).groceries = st.groceries)
    ∧ (data.repairs = none → (onSnapshotHandler st true data).repairs = st.repairs)
    ∧ (∀ v, data.spaces = some v → (onSnapshotHandler st true data).spaces = v)
    ∧ (∀ v, data.items = some v → (onSnapshotHandler st true data).items = v)
    ∧ (∀ v, data.groceries = some v → (onSnapshotHandler st true data).groceries = v)
    ∧ (∀ v, data.repairs = some v → (onSnapshotHandler st true data).repairs = v)
    ∧ (data.repairs = none → (onSnapshotHandler initialLocalState true data).repairs = []) := by
  refine ⟨?_, ?_, ?_, ?_, ?_, ?_, ?_, ?_, ?_⟩ <;>
    first
      | (intro h; simp [onSnapshotHandler, h, initialLocalState])
      | (intro v h; simp [onSnapshotHandler, h])

/-- Witness for C4 at a concrete input: a legacy document carrying only
groceries overwrites the local groceries, and the local repairs collection
of the initial state stays the empty default. -/
theorem onSnapshot_sparse_merge_witness :
    (onSnapshotHandler initialLocalState true sampleRemote).repairs = []
    ∧ (onSnapshotHandler initialLocalState true sampleRemote).groceries = sampleGroceries
    ∧ (onSnapshotHandler initialLocalState true sampleRemote).items = [] := by
  have h := onSnapshot_sparse_merge initialLocalState sampleRemote
  exact ⟨h.2.2.2.2.2.2.2.2 rfl, h.2.2.2.2.2.2.1 sampleGroceries rfl,
    h.2.1 rfl⟩

/-- The Boolean prefix test `strStartsWith` agrees with `List.IsPrefix`. -/
theorem strStartsWith_iff (s q : Str) : strStartsWith s q = true ↔ q <+: s := by
  induction s generalizing q with
  | nil =>
    cases q with
    | nil => simp [strStartsWith]
    | cons b t => simp [strStartsWith]
  | cons a s ih =>
    cases q with
    | nil => simp [strStartsWith]
    | cons b t =>
      simp only [strStartsWith, Bool.and_eq_true, beq_iff_eq,
        List.cons_prefix_cons, ih]
      constructor
      · rintro ⟨h1, h2⟩; exact ⟨h1.symm, h2⟩
      · rintro ⟨h1, h2⟩; exact ⟨h1.symm, h2⟩

/-- The embedded `includes` agrees with contiguous-substring containment. -/
theorem jsIncludes_iff (s q : Str) : jsIncludes s q = true ↔ q <:+: s := by
  induction s with
  | nil =>
    simp [jsIncludes, strStartsWith_iff]
  | cons a s ih =>
    simp only [jsIncludes, Bool.or_eq_true, strStartsWith_iff, ih]
    exact List.infix_cons_iff.symm

/-- Pointwise reading of `matchItem` in terms of substring containment. -/
theorem matchItem_iff (item : Item) (query : Str) :
    matchItem item query = true ↔
      (jsToLower query <:+: jsToLower (item.name.getD [])
        ∨ ∃ opt ∈ item.options.getD [],
            jsToLower query <:+: jsToLower (opt.model.getD [])
            ∨ jsToLower query <:+: jsToLower (opt.store.getD [])) := by
  simp [matchItem, List.any_eq_true, jsIncludes_iff]

/-- C6. An Item appears in the filtered search results exactly when the
lowercased query is a substring of its lowercased name, or of some option's
lowercased model or store; a Space appears in `filteredSpaces` exactly when
its own name matches or some child Item (same `spaceId`) matches. -/
theorem search_filter_iff (searchQuery : Str) (spaces : List Space)
    (items : List Item) :
    (∀ item, item ∈ filteredItems items searchQuery ↔
        item ∈ items ∧
          (jsToLower searchQuery <:+: jsToLower (item.name.getD [])
            ∨ ∃ opt ∈ item.options.getD [],
                jsToLower searchQuery <:+: jsToLower (opt.model.getD [])
                ∨ jsToLower searchQuery <:+: jsToLower (opt.store.getD [])))
    ∧ (∀ s, s ∈ filteredSpaces spaces items searchQuery ↔
        s ∈ spaces ∧
          (jsToLower searchQuery <:+: jsToLower (s.name.getD [])
            ∨ ∃ i ∈ items, i.spaceId = s.id ∧
                (jsToLower searchQuery <:+: jsToLower (i.name.getD [])
                  ∨ ∃ opt ∈ i.options.getD [],
                      jsToLower searchQuery <:+: jsToLower (opt.model.getD [])
                      ∨ jsToLower searchQuery <:+: jsToLower (opt.store.getD [])))) := by
  constructor
  · intro item
    simp [filteredItems, List.mem_filter, matchItem_iff]
  · intro s
    simp [filteredSpaces, List.mem_filter, List.any_eq_true, jsIncludes_iff,
      matchItem_iff]

/-- Witness for C6 at a concrete input: the item "Couch" whose option's
store is "Ikea" is returned for the query "ike" although neither its name
nor the option's model contains the query, and its owning space is kept. -/
theorem search_filter_iff_witness :
    storeItem ∈ filteredItems [storeItem] ("ike".toList)
    ∧ sampleSpaces.getD 0 default ∈
        filteredSpaces sampleSpaces [storeItem] ("ike".toList) := by
  constructor
  · have h := (search_filter_iff ("ike".toList) [] [storeItem]).1 storeItem
    refine h.mpr ⟨by decide, Or.inr ⟨storeOption, by decide, Or.inr (by decide)⟩⟩
  · have h := (search_filter_iff ("ike".toList) sampleSpaces [storeItem]).2
      (sampleSpaces.getD 0 default)
    refine h.mpr ⟨by decide, Or.inr ⟨storeItem, by decide, by decide,
      Or.inr ⟨storeOption, by decide, Or.inr (by decide)⟩⟩⟩

/-- Inserting at an index within bounds is a permutation of consing. -/
theorem insertIdx_perm_cons {α : Type} (x : α) :
    ∀ (n : Nat) (l : List α), n ≤ l.length → (l.insertIdx n x).Perm (x :: l)
  | 0, l, _ => by simp [List.insertIdx_zero]
  | n + 1, [], h => by simp at h
  | n + 1, a :: l, h => by
    rw [List.insertIdx_succ_cons]
    exact ((insertIdx_perm_cons x n l (Nat.le_of_succ_le_succ h)).cons a).trans
      (List.Perm.swap x a l)

/-- A list is a permutation of the element at a valid index consed onto the
list with that index erased. -/
theorem perm_cons_eraseIdx {α : Type} [Inhabited α] :
    ∀ (l : List α) (i : Nat), i < l.length →
      l.Perm (l.getD i default :: l.eraseIdx i)
  | [], i, h => by simp at h
  | a :: l, 0, _ => by simp
  | a :: l, i + 1, h => by
    have ih := perm_cons_eraseIdx l i (by simpa using h)
    have hgd : (a :: l).getD (i + 1) default = l.getD i default := by
      simp [List.getD_eq_getElem?_getD]
    rw [hgd, List.eraseIdx_cons_succ]
    exact (ih.cons a).trans (List.Perm.swap _ a _)

/-- C5. For valid drag index `i` and drop index `j` with `i ≠ j`, the drop
handler produces a permutation of the input list (same multiset of options,
fields untouched), equal to erasing index `i` and reinserting the dragged
option at index `j`; when `i = j` or no drag is in progress the list is
returned unchanged. -/
theorem handleOptionDrop_perm (opts : List ItemOption) (i j : Nat) :
    (i < opts.length → j < opts.length → i ≠ j →
        (handleOptionDrop (some i) j opts).Perm opts
        ∧ handleOptionDrop (some i) j opts
            = (opts.eraseIdx i).insertIdx j (opts.getD i default))
    ∧ handleOptionDrop (some i) i opts = opts
    ∧ handleOptionDrop none j opts = opts := by
  refine ⟨?_, by simp [handleOptionDrop], by simp [handleOptionDrop]⟩
  intro hi hj hij
  refine ⟨?_, by simp [handleOptionDrop, hij]⟩
  have h1 : ((opts.eraseIdx i).insertIdx j (opts.getD i default)).Perm
      (opts.getD i default :: opts.eraseIdx i) := by
    apply insertIdx_perm_cons
    rw [List.length_eraseIdx_of_lt hi]
    omega
  have h2 := perm_cons_eraseIdx opts i hi
  have h3 := h1.trans h2.symm
  simpa [handleOptionDrop, hij] using h3

/-- Witness for C5 at a concrete input: moving the first of three options
to the last position permutes the list and yields exactly the expected
rotation. -/
theorem handleOptionDrop_perm_witness :
    (handleOptionDrop (some 0) 2 dndSample).Perm dndSample
    ∧ handleOptionDrop (some 0) 2 dndSample
        = [dndSample.getD 1 default, dndSample.getD 2 default,
            dndSample.getD 0 default] := by
  have h := (handleOptionDrop_perm dndSample 0 2).1 (by decide) (by decide)
    (by decide)
  exact ⟨h.1, by decide⟩

/-- Reading an indexed map at a valid index. -/
theorem getD_mapIdx {α : Type} [Inhabited α] (f : Nat → α → α) (l : List α)
    (k : Nat) (h : k < l.length) :
    (l.mapIdx f).getD k default = f k (l.getD k default) := by
  have hk : k < (l.mapIdx f).length := by simpa using h
  simp [List.getD_eq_getElem?_getD, List.getElem?_eq_getElem, h, hk,
    List.getElem_mapIdx]

/-- `toggleAtIdx` read pointwise at a valid index. -/
theorem toggleAtIdx_getD (opts : List ItemOption) (idx k : Nat)
    (hk : k < opts.length) :
    (toggleAtIdx idx opts).getD k default =
      if k = idx then
        { opts.getD k default with winner := !(opts.getD k default).winner }
      else opts.getD k default := by
  unfold toggleAtIdx
  rw [getD_mapIdx _ _ _ hk]

/-- `toggleAtIdx` at an out-of-range index changes nothing. -/
theorem toggleAtIdx_of_ge (opts : List ItemOption) (idx : Nat)
    (h : opts.length ≤ idx) : toggleAtIdx idx opts = opts := by
  apply List.ext_getElem (by simp [toggleAtIdx])
  intro m h1 h2
  unfold toggleAtIdx
  simp only [List.getElem_mapIdx]
  rw [if_neg (by omega)]

/-- The winner toggle preserves list length. -/
theorem toggleWinner_length (opts : List ItemOption) (idx : Nat) :
    (toggleWinner opts idx).length = opts.length := by
  unfold toggleWinner
  split <;> simp [clearOtherWinners, toggleAtIdx]

/-- When option `idx` is currently the winner, the toggle stops after the
first stage (nothing is cleared). -/
theorem toggleWinner_of_winner_true (opts : List ItemOption) (idx : Nat)
    (h : idx < opts.length) (hw : (opts.getD idx default).winner = true) :
    toggleWinner opts idx = toggleAtIdx idx opts := by
  have hc : ((toggleAtIdx idx opts).getD idx default).winner = false := by
    rw [toggleAtIdx_getD opts idx idx h, if_pos rfl]
    show (!(opts.getD idx default).winner) = false
    rw [hw]
    rfl
  unfold toggleWinner
  rw [hc]
  simp

/-- When option `idx` is currently not the winner, the toggle runs both
stages. -/
theorem toggleWinner_of_winner_false (opts : List ItemOption) (idx : Nat)
    (h : idx < opts.length) (hw : (opts.getD idx default).winner = false) :
    toggleWinner opts idx = clearOtherWinners idx (toggleAtIdx idx opts) := by
  have hc : ((toggleAtIdx idx opts).getD idx default).winner = true := by
    rw [toggleAtIdx_getD opts idx idx h, if_pos rfl]
    show (!(opts.getD idx default).winner) = true
    rw [hw]
    rfl
  unfold toggleWinner
  rw [hc]
  simp

/-- The winner toggle at an out-of-range index changes nothing. -/
theorem toggleWinner_of_ge (opts : List ItemOption) (idx : Nat)
    (h : opts.length ≤ idx) : toggleWinner opts idx = opts := by
  have h1 : toggleAtIdx idx opts = opts := toggleAtIdx_of_ge opts idx h
  have hdef : ((none : Option ItemOption).getD default).winner = false := rfl
  unfold toggleWinner
  rw [h1, List.getD_eq_getElem?_getD, List.getElem?_eq_none h, hdef]
  simp

/-- Pointwise description of a toggle that turns option `idx` on. -/
theorem toggleWinner_pointwise_false (opts : List ItemOption) (idx : Nat)
    (h : idx < opts.length) (hw : (opts.getD idx default).winner = false)
    (k : Nat) (hk : k < opts.length) :
    (toggleWinner opts idx).getD k default =
      if k = idx then { opts.getD idx default with winner := true }
      else { opts.getD k default with winner := false } := by
  rw [toggleWinner_of_winner_false opts idx h hw]
  unfold clearOtherWinners
  simp only [getD_mapIdx _ _ _ (show k < (toggleAtIdx idx opts).length from by
      simpa [toggleAtIdx] using hk),
    toggleAtIdx_getD opts idx k hk]
  by_cases hki : k = idx
  · subst hki
    simp only [eq_self_iff_true, if_true]
    show ({ opts.getD k default with winner := !(opts.getD k default).winner } : ItemOption)
        = { opts.getD k default with winner := true }
    rw [hw]
    rfl
  · simp only [hki, if_false]

/-- `countWinners` on a cons cell. -/
theorem countWinners_cons (o : ItemOption) (l : List ItemOption) :
    countWinners (o :: l) = (if o.winner then 1 else 0) + countWinners l := by
  simp only [countWinners, List.filter_cons]
  split <;> rename_i hc
  · simp only [List.length_cons]
    omega
  · omega

/-- A list all of whose options have the winner flag off counts zero
winners. -/
theorem countWinners_eq_zero (l : List ItemOption)
    (h : ∀ k, k < l.length → (l.getD k default).winner = false) :
    countWinners l = 0 := by
  induction l with
  | nil => rfl
  | cons o l ih =>
    have h0 : o.winner = false := by simpa using h 0 (by simp)
    have ht : ∀ k, k < l.length → (l.getD k default).winner = false := by
      intro k hk
      have := h (k + 1) (by simp; omega)
      simpa [List.getD_eq_getElem?_getD] using this
    simp [countWinners_cons, h0, ih ht]

/-- A list whose winner flag is on exactly at index `idx` counts one
winner. -/
theorem countWinners_eq_one_of (l : List ItemOption) (idx : Nat)
    (h : idx < l.length) (hw : (l.getD idx default).winner = true)
    (ho : ∀ k, k < l.length → k ≠ idx → (l.getD k default).winner = false) :
    countWinners l = 1 := by
  induction l generalizing idx with
  | nil => simp at h
  | cons o l ih =>
    cases idx with
    | zero =>
      have h0 : o.winner = true := by simpa using hw
      have hz : countWinners l = 0 := by
        apply countWinners_eq_zero
        intro k hk
        have := ho (k + 1) (by simp; omega) (by omega)
        simpa [List.getD_eq_getElem?_getD] using this
      simp [countWinners_cons, h0, hz]
    | succ n =>
      have h0 : o.winner = false := by
        simpa using ho 0 (by simp) (by omega)
      have hw' : (l.getD n default).winner = true := by
        simpa [List.getD_eq_getElem?_getD] using hw
      have ho' : ∀ k, k < l.length → k ≠ n → (l.getD k default).winner = false := by
        intro k hk hkn
        have := ho (k + 1) (by simp; omega) (by omega)
        simpa [List.getD_eq_getElem?_getD] using this
      simp [countWinners_cons, h0, ih n (by simpa using h) hw' ho']

/-- A winner at some valid index bounds the count below by one. -/
theorem one_le_countWinners (l : List ItemOption) (idx : Nat)
    (h : idx < l.length) (hw : (l.getD idx default).winner = true) :
    1 ≤ countWinners l := by
  induction l generalizing idx with
  | nil => simp at h
  | cons o l ih =>
    cases idx with
    | zero =>
      have h0 : o.winner = true := by simpa using hw
      simp [countWinners_cons, h0]
    | succ n =>
      have hw' : (l.getD n default).winner = true := by
        simpa [List.getD_eq_getElem?_getD] using hw
      have := ih n (by simpa using h) hw'
      simp only [countWinners_cons]
      omega

/-- Winners at two distinct valid indices bound the count below by two. -/
theorem two_le_countWinners (l : List ItemOption) (i j : Nat)
    (hi : i < l.length) (hj : j < l.length) (hij : i ≠ j)
    (hwi : (l.getD i default).winner = true)
    (hwj : (l.getD j default).winner = true) :
    2 ≤ countWinners l := by
  induction l generalizing i j with
  | nil => simp at hi
  | cons o l ih =>
    cases i with
    | zero =>
      cases j with
      | zero => omega
      | succ m =>
        have h0 : o.winner = true := by simpa using hwi
        have hw' : (l.getD m default).winner = true := by
          simpa [List.getD_eq_getElem?_getD] using hwj
        have h1 := one_le_countWinners l m (by simpa using hj) hw'
        simp only [countWinners_cons, h0, if_true]
        omega
    | succ n =>
      cases j with
      | zero =>
        have h0 : o.winner = true := by simpa using hwj
        have hw' : (l.getD n default).winner = true := by
          simpa [List.getD_eq_getElem?_getD] using hwi
        have h1 := one_le_countWinners l n (by simpa using hi) hw'
        simp only [countWinners_cons, h0, if_true]
        omega
      | succ m =>
        have := ih n m (by simpa using hi) (by simpa using hj) (by omega)
          (by simpa [List.getD_eq_getElem?_getD] using hwi)
          (by simpa [List.getD_eq_getElem?_getD] using hwj)
        simp only [countWinners_cons]
        omega

/-- Pointwise implication of winner flags bounds the winner counts. -/
theorem countWinners_le_pointwise (l₁ l₂ : List ItemOption)
    (hlen : l₁.length = l₂.length)
    (h : ∀ k, k < l₁.length → (l₁.getD k default).winner = true →
        (l₂.getD k default).winner = true) :
    countWinners l₁ ≤ countWinners l₂ := by
  induction l₁ generalizing l₂ with
  | nil => simp [countWinners]
  | cons o l ih =>
    cases l₂ with
    | nil => simp at hlen
    | cons o₂ l₂ =>
      have h0 : o.winner = true → o₂.winner = true := by
        intro hw
        simpa using h 0 (by simp) (by simpa using hw)
      have ht : ∀ k, k < l.length → (l.getD k default).winner = true →
          (l₂.getD k default).winner = true := by
        intro k hk hw
        have := h (k + 1) (by simp; omega)
          (by simpa [List.getD_eq_getElem?_getD] using hw)
        simpa [List.getD_eq_getElem?_getD] using this
      have hrec := ih l₂ (by simpa using hlen) ht
      by_cases hw : o.winner = true
      · rw [countWinners_cons, countWinners_cons, if_pos hw, if_pos (h0 hw)]
        omega
      · rw [countWinners_cons, countWinners_cons, if_neg hw]
        split <;> omega

/-- A toggle that turns option `idx` on leaves exactly one winner. -/
theorem countWinners_toggle_of_false (l : List ItemOption) (k : Nat)
    (hk : k < l.length) (hw : (l.getD k default).winner = false) :
    countWinners (toggleWinner l k) = 1 := by
  have hp := toggleWinner_pointwise_false l k hk hw
  apply countWinners_eq_one_of _ k (by rw [toggleWinner_length]; exact hk)
  · rw [hp k hk, if_pos rfl]
  · intro m hm hmk
    rw [hp m (by rwa [toggleWinner_length] at hm), if_neg hmk]

/-- One winner-toggle step preserves the at-most-one-winner invariant. -/
theorem countWinners_toggleWinner_le_one (l : List ItemOption) (k : Nat)
    (hinv : countWinners l ≤ 1) : countWinners (toggleWinner l k) ≤ 1 := by
  by_cases hk : k < l.length
  · by_cases hw : (l.getD k default).winner = true
    · rw [toggleWinner_of_winner_true l k hk hw]
      have hle : countWinners (toggleAtIdx k l) ≤ countWinners l := by
        apply countWinners_le_pointwise
        · simp [toggleAtIdx]
        · intro m hm hwm
          have hm' : m < l.length := by simpa [toggleAtIdx] using hm
          rw [toggleAtIdx_getD l k m hm'] at hwm
          by_cases hmk : m = k
          · subst hmk
            exact hw
          · rwa [if_neg hmk] at hwm
      omega
    · have hw' : (l.getD k default).winner = false := by
        cases hb : (l.getD k default).winner
        · rfl
        · exact absurd hb hw
      rw [countWinners_toggle_of_false l k hk hw']
  · rw [toggleWinner_of_ge l k (by omega)]
    exact hinv

/-- Any sequence of winner toggles preserves the at-most-one-winner
invariant. -/
theorem countWinners_toggleSeq_le_one (l : List ItemOption) (ops : List Nat)
    (hinv : countWinners l ≤ 1) : countWinners (toggleSeq l ops) ≤ 1 := by
  induction ops generalizing l with
  | nil => simpa [toggleSeq] using hinv
  | cons k ops ih =>
    have hstep := countWinners_toggleWinner_le_one l k hinv
    simpa [toggleSeq] using ih (toggleWinner l k) hstep

/-- C1. When the Trophy toggle turns option `idx` on (its winner flag was
off), afterwards option `idx` is the winner, every other option's winner
flag is cleared in the same update, and the list counts exactly one
winner. -/
theorem toggleWinner_single_winner (opts : List ItemOption) (idx : Nat)
    (h : idx < opts.length) (hw : (opts.getD idx default).winner = false) :
    ((toggleWinner opts idx).getD idx default).winner = true
    ∧ (∀ j, j < opts.length → j ≠ idx →
        ((toggleWinner opts idx).getD j default).winner = false)
    ∧ countWinners (toggleWinner opts idx) = 1 := by
  have hp := toggleWinner_pointwise_false opts idx h hw
  refine ⟨?_, ?_, countWinners_toggle_of_false opts idx h hw⟩
  · rw [hp idx h, if_pos rfl]
  · intro j hj hji
    rw [hp j hj, if_neg hji]

/-- Witness for C1 at a concrete input: in a two-option list whose first
option is the winner, toggling the second option on makes it the sole
winner and clears the first. -/
theorem toggleWinner_single_winner_witness :
    ((toggleWinner [winnerOption, storeOption] 1).getD 1 default).winner = true
    ∧ ((toggleWinner [winnerOption, storeOption] 1).getD 0 default).winner = false
    ∧ countWinners (toggleWinner [winnerOption, storeOption] 1) = 1 := by
  have h := toggleWinner_single_winner [winnerOption, storeOption] 1
    (by decide) (by decide)
  exact ⟨h.1, h.2.1 0 (by decide) (by decide), h.2.2⟩

/-- Counterexample to C10 as stated: in a list where two options carry the
winner flag (a state the toggle invariant never produces, but the claim
quantifies over every options list), toggling the first — a current
winner — leaves one winner, not zero. -/
theorem toggleWinner_off_counterexample :
    (([winnerOption, winnerOption] : List ItemOption).getD 0 default).winner = true
    ∧ countWinners (toggleWinner [winnerOption, winnerOption] 0) ≠ 0 := by
  decide

/-- C10 (amended): for every options list with at most one winner in which
option `idx` carries the winner flag, toggling `idx` turns its flag off,
changes no other option, and leaves zero winners; moreover a single toggle,
and hence any sequence of toggles, preserves the at-most-one-winner
invariant, so zero winners is a reachable state. -/
theorem toggleWinner_off_amended (opts : List ItemOption) (idx : Nat)
    (h : idx < opts.length) (hinv : countWinners opts ≤ 1)
    (hw : (opts.getD idx default).winner = true) :
    ((toggleWinner opts idx).getD idx default).winner = false
    ∧ (∀ j, j < opts.length → j ≠ idx →
        (toggleWinner opts idx).getD j default = opts.getD j default)
    ∧ countWinners (toggleWinner opts idx) = 0
    ∧ (∀ (l : List ItemOption) (k : Nat) (ops : List Nat),
        countWinners l ≤ 1 →
          countWinners (toggleWinner l k) ≤ 1
          ∧ countWinners (toggleSeq l ops) ≤ 1) := by
  have hr := toggleWinner_of_winner_true opts idx h hw
  have hgd : ∀ k, k < opts.length → (toggleWinner opts idx).getD k default =
      if k = idx then
        { opts.getD idx default with winner := !(opts.getD idx default).winner }
      else opts.getD k default := by
    intro k hk
    rw [hr, toggleAtIdx_getD opts idx k hk]
    by_cases hki : k = idx
    · subst hki
      rfl
    · rw [if_neg hki, if_neg hki]
  refine ⟨?_, ?_, ?_, ?_⟩
  · rw [hgd idx h, if_pos rfl]
    show (!(opts.getD idx default).winner) = false
    rw [hw]
    rfl
  · intro j hj hji
    rw [hgd j hj, if_neg hji]
  · apply countWinners_eq_zero
    intro m hm
    rw [toggleWinner_length] at hm
    rw [hgd m hm]
    by_cases hmi : m = idx
    · subst hmi
      rw [if_pos rfl]
      show (!(opts.getD m default).winner) = false
      rw [hw]
      rfl
    · rw [if_neg hmi]
      cases hb : (opts.getD m default).winner
      · rfl
      · exact absurd hinv (by
          have := two_le_countWinners opts idx m h hm
            (fun he => hmi he.symm) hw hb
          omega)
  · intro l k ops hl
    exact ⟨countWinners_toggleWinner_le_one l k hl,
      countWinners_toggleSeq_le_one l ops hl⟩

/-- Witness for the amended C10 at a concrete input: toggling the sole
winner of a two-option list turns it off, leaves the other option exactly
as it was, and leaves zero winners. -/
theorem toggleWinner_off_amended_witness :
    countWinners (toggleWinner [winnerOption, storeOption] 0) = 0
    ∧ (toggleWinner [winnerOption, storeOption] 0).getD 1 default = storeOption := by
  have h := toggleWinner_off_amended [winnerOption, storeOption] 0
    (by decide) (by decide) (by decide)
  refine ⟨h.2.2.1, ?_⟩
  rw [h.2.1 1 (by decide) (by decide)]
  decide

/-- Reading `getD` at a valid index gives the indexed element. -/
theorem getD_eq_getElem_of_lt {α : Type} [Inhabited α] (l : List α) (k : Nat)
    (h : k < l.length) : l.getD k default = l[k] := by
  simp [List.getD_eq_getElem?_getD, List.getElem?_eq_getElem, h]

/-- C7. After `deleteItem`, no item with the deleted id remains in the
collection, and whenever the selected item's id equals the deleted id the
selection is cleared. -/
theorem deleteItem_removes_item (st : ItemsState) (itemId : Str) :
    (∀ i ∈ (deleteItem st itemId).items, i.id ≠ itemId)
    ∧ (∀ sel, st.selectedItem = some sel → sel.id = itemId →
        (deleteItem st itemId).selectedItem = none) := by
  constructor
  · intro i hi
    have hmem := (List.mem_filter.mp hi).2
    simpa using hmem
  · intro sel _ _
    rfl

/-- Witness for C7 at a concrete input: deleting the selected item removes
it and clears the selection. -/
theorem deleteItem_removes_item_witness :
    (∀ i ∈ (deleteItem mixedState ("i3".toList)).items, i.id ≠ "i3".toList)
    ∧ (deleteItem mixedState ("i3".toList)).selectedItem = none := by
  have h := deleteItem_removes_item mixedState ("i3".toList)
  exact ⟨h.1, h.2 mixedIdItem rfl rfl⟩

/-- C9. `deleteItem` clears the selected-item reference unconditionally:
the selection becomes null for every state, in particular also when the
current selection's id differs from the deleted id. -/
theorem deleteItem_clears_selection (st : ItemsState) (itemId : Str) :
    (deleteItem st itemId).selectedItem = none
    ∧ (∀ sel, st.selectedItem = some sel → sel.id ≠ itemId →
        (deleteItem st itemId).selectedItem = none) :=
  ⟨rfl, fun _ _ _ => rfl⟩

/-- Witness for C9 at a concrete input: deleting an id different from the
selected item's id still clears the selection. -/
theorem deleteItem_clears_selection_witness :
    (deleteItem mixedState ("zz".toList)).selectedItem = none :=
  (deleteItem_clears_selection mixedState ("zz".toList)).2 mixedIdItem rfl
    (by decide)

/-- C8. When an item is selected, its options are present and some option
lacks an id, the backfill assigns a fresh identifier to every option
lacking one, leaves every option that already has an id unchanged, every
option of the patched list has an id (given the uuid supply yields
non-empty strings), and the patched list is persisted through
`updateItem`: the new state is exactly the `updateItem` result, every
stored item with the selected id carries the patched options, the selected
item carries them too, and the collection handed to `saveData` is the new
item collection. -/
theorem dndMigration_backfill (uuid : Nat → Str) (st : ItemsState) (sel : Item)
    (opts : List ItemOption) (hsel : st.selectedItem = some sel)
    (hopts : sel.options = some opts) (hmiss : hasOptionMissingId opts = true)
    (hfresh : ∀ n, uuid n ≠ []) :
    (∀ k, k < opts.length →
        (jsTruthyStr (opts.getD k default).id = false →
          (backfillOptions uuid opts).getD k default
            = { opts.getD k default with id := some (uuid k) })
        ∧ (jsTruthyStr (opts.getD k default).id = true →
          (backfillOptions uuid opts).getD k default = opts.getD k default))
    ∧ (∀ o ∈ backfillOptions uuid opts, jsTruthyStr o.id = true)
    ∧ dndMigrationEffect uuid st
        = (updateItem st sel.id (backfillOptions uuid opts)).1
    ∧ (∀ i ∈ (dndMigrationEffect uuid st).items,
        i.id = sel.id → i.options = some (backfillOptions uuid opts))
    ∧ (dndMigrationEffect uuid st).selectedItem
        = some { sel with options := some (backfillOptions uuid opts) }
    ∧ (updateItem st sel.id (backfillOptions uuid opts)).2
        = (dndMigrationEffect uuid st).items := by
  have hpt : ∀ k, k < opts.length → (backfillOptions uuid opts).getD k default
      = if jsTruthyStr (opts.getD k default).id then opts.getD k default
        else { opts.getD k default with id := some (uuid k) } := by
    intro k hk
    unfold backfillOptions
    simp only [getD_mapIdx _ _ _ hk]
  have hmain : dndMigrationEffect uuid st
      = (updateItem st sel.id (backfillOptions uuid opts)).1 := by
    simp [dndMigrationEffect, hsel, hopts, hmiss]
  have hitems : ∀ i ∈ (updateItem st sel.id (backfillOptions uuid opts)).1.items,
      i.id = sel.id → i.options = some (backfillOptions uuid opts) := by
    intro i hi hid
    have hi' : i ∈ st.items.map fun i0 =>
        if i0.id = sel.id then { i0 with options := some (backfillOptions uuid opts) }
        else i0 := hi
    obtain ⟨i0, hi0, hmap⟩ := List.mem_map.mp hi'
    by_cases h0 : i0.id = sel.id
    · rw [if_pos h0] at hmap
      rw [← hmap]
    · rw [if_neg h0] at hmap
      exact absurd (hmap ▸ hid) h0
  have hsel2 : (updateItem st sel.id (backfillOptions uuid opts)).1.selectedItem
      = some { sel with options := some (backfillOptions uuid opts) } := by
    simp [updateItem, hsel]
  refine ⟨?_, ?_, hmain, ?_, ?_, ?_⟩
  · intro k hk
    constructor
    · intro hid
      rw [hpt k hk, hid]
      simp
    · intro hid
      rw [hpt k hk, hid]
      simp
  · intro o ho
    obtain ⟨k, hk, hko⟩ := List.mem_iff_getElem.mp ho
    have hk' : k < opts.length := by simpa [backfillOptions] using hk
    have hval : (backfillOptions uuid opts).getD k default = o := by
      rw [getD_eq_getElem_of_lt _ _ hk]
      exact hko
    rw [hpt k hk'] at hval
    by_cases hid : jsTruthyStr (opts.getD k default).id = true
    · rw [if_pos hid] at hval
      rw [← hval]
      exact hid
    · rw [if_neg hid] at hval
      rw [← hval]
      show jsTruthyStr (some (uuid k)) = true
      cases hu : uuid k with
      | nil => exact absurd hu (hfresh k)
      | cons c cs => rfl
  · rw [hmain]
    exact hitems
  · rw [hmain]
    exact hsel2
  · rw [hmain]
    rfl

/-- Witness for C8 at a concrete input: backfilling an item with one
identified and one unidentified option yields options that all carry ids,
and the selected item is updated with the patched list. -/
theorem dndMigration_backfill_witness :
    (∀ o ∈ backfillOptions sampleUuid [storeOption, noIdOption],
        jsTruthyStr o.id = true)
    ∧ (dndMigrationEffect sampleUuid mixedState).selectedItem
        = some { mixedIdItem with
            options := some (backfillOptions sampleUuid [storeOption, noIdOption]) } := by
  have h := dndMigration_backfill sampleUuid mixedState mixedIdItem
    [storeOption, noIdOption] rfl rfl (by decide)
    (fun n => by show "u".toList ≠ []; decide)
  exact ⟨h.2.1, h.2.2.2.2.1⟩
